import Mathlib

/-!
Verification development for the attendance normalization and gap-filling
engine of the leave-productivity-analyzer repository.

The definitions below are a shallow embedding of src/src/lib/calculations.ts:
pure functions become Lean functions over exact rationals, thrown exceptions
become Except values, and JavaScript Date objects become an inductive type
carrying either an invalid marker (a NaN timestamp) or a day number (rata die,
so that the day of week is the day number modulo 7, with 0 = Sunday as in
JavaScript getDay) plus a milliseconds-of-day component (so that startOfDay
normalization is the operation that zeroes that component).

All values manipulated by the engine (multiples of 1/60 of an hour, or their
sums and quotients) stay far enough from rounding boundaries that the IEEE
double computations of the source agree with exact rational arithmetic, so a
rational model is faithful for every property stated here.
-/

namespace LeaveAnalyzer

/-! Rounding: JavaScript Math.round(x) is floor(x + 1/2) (half rounds toward
positive infinity, which on the non-negative values produced by this engine
coincides with round-half-away-from-zero). The source rounds to 2 decimals
via Math.round(x * 100) / 100 and to 1 decimal via Math.round(x * 10) / 10. -/

def jsRound (q : ℚ) : ℤ := ⌊q + 1/2⌋

def round2 (q : ℚ) : ℚ := (jsRound (q * 100) : ℚ) / 100

def round1 (q : ℚ) : ℚ := (jsRound (q * 10) : ℚ) / 10

/-- Errors thrown by calculations.ts: InvalidTimeFormatError (carrying the
offending time string and a details string), InvalidDateError, and
CalculationError (carrying a message and a context string). The spec names
CalculationError thrown by the productivity functions InvalidMetricInput and
CalculationError thrown by calculateWorkedHours CalculationOutOfRange. -/
inductive CalcError where
  | invalidTimeFormat : (timeString : String) → (details : String) → CalcError
  | invalidDate : (message : String) → CalcError
  | calculation : (message : String) → (context : String) → CalcError
  deriving DecidableEq

/-! Character classes used by the time regex
TIME_24HR_REGEX = ^([0-1]?[0-9]|2[0-3]):([0-5][0-9])$ and by String.trim. -/

def isDigitChar (c : Char) : Bool := 48 ≤ c.toNat && c.toNat ≤ 57

def digitVal (c : Char) : ℕ := c.toNat - 48

def isWsChar (c : Char) : Bool := c == ' ' || c == '\t' || c == '\n' || c == '\r'

/-- JavaScript String.prototype.trim: drop leading and trailing whitespace. -/
def trimChars (cs : List Char) : List Char :=
  ((cs.dropWhile isWsChar).reverse.dropWhile isWsChar).reverse

/-- Second character of a two-digit hour starting with 2: [0-3]. -/
def isHourSub (c : Char) : Bool := 48 ≤ c.toNat && c.toNat ≤ 51

/-- First character of a two-digit hour in the first alternative: [0-1]. -/
def isHourLead (c : Char) : Bool := c == '0' || c == '1'

/-- Tens digit of the minute: [0-5]. -/
def isMinTens (c : Char) : Bool := 48 ≤ c.toNat && c.toNat ≤ 53

/-- Matching a whole string against ^([0-1]?[0-9]|2[0-3]):([0-5][0-9])$ and
extracting the two capture groups as numbers (as parseInt does on them):
either H:MM with a single-digit hour, or HH:MM where the hour is 0d/1d or
20..23. Every other string is rejected. -/
def timeRegexMatch : List Char → Option (ℕ × ℕ)
  | [h1, c, m1, m2] =>
    if (c == ':') && isDigitChar h1 && isMinTens m1 && isDigitChar m2 then
      some (digitVal h1, 10 * digitVal m1 + digitVal m2)
    else none
  | [h1, h2, c, m1, m2] =>
    if (c == ':') && (isHourLead h1 && isDigitChar h2 || h1 == '2' && isHourSub h2)
        && isMinTens m1 && isDigitChar m2 then
      some (10 * digitVal h1 + digitVal h2, 10 * digitVal m1 + digitVal m2)
    else none
  | _ => none

/-- parseTime from calculations.ts: reject empty-after-trim input, match the
trimmed string against the regex, re-check the extracted hour and minute
ranges (the regex already guarantees them), and return hours + minutes/60. -/
def parseTime (s : String) : Except CalcError ℚ :=
  let t := trimChars s.data
  if t.isEmpty then
    .error (.invalidTimeFormat s "Time must be a non-empty string.")
  else
    match timeRegexMatch t with
    | none => .error (.invalidTimeFormat (String.mk t) "Use 24-hour format HH:MM.")
    | some (h, m) =>
      if 23 < h then
        .error (.invalidTimeFormat (String.mk t) "Hours must be between 00 and 23.")
      else if 59 < m then
        .error (.invalidTimeFormat (String.mk t) "Minutes must be between 00 and 59.")
      else
        .ok ((h : ℚ) + (m : ℚ) / 60)

/-- Decimal value of an hour-minute pair, as parseTime returns it. -/
def timeDecimal (h m : ℕ) : ℚ := (h : ℚ) + (m : ℚ) / 60

/-- The duration computation of calculateWorkedHours before validation and
rounding: outHours - inHours for a same-day shift, 24 - inHours + outHours on
overnight wraparound (when outHours < inHours). -/
def workedDiff (inHours outHours : ℚ) : ℚ :=
  if inHours ≤ outHours then outHours - inHours else 24 - inHours + outHours

/-- calculateWorkedHours from calculations.ts: parse both times, subtract
(adding 24 on overnight wraparound when outHours < inHours), reject results
outside [0, 24] with a CalculationError, and round to 2 decimals. -/
def calculateWorkedHours (inTime outTime : String) : Except CalcError ℚ := do
  let inHours ← parseTime inTime
  let outHours ← parseTime outTime
  let workedHours : ℚ := workedDiff inHours outHours
  if workedHours < 0 ∨ 24 < workedHours then
    .error (.calculation "Calculated worked hours is outside valid range [0, 24]." "calculateWorkedHours")
  else
    .ok (round2 workedHours)

/-! JavaScript Date model: invalid (NaN timestamp), or a rata-die day number
together with the milliseconds elapsed since local midnight. -/

inductive JSDate where
  | invalid : JSDate
  | valid : (days : ℤ) → (msOfDay : ℕ) → JSDate
  deriving DecidableEq

/-- date-fns startOfDay: zero the time-of-day component. -/
def normalizeDate : JSDate → JSDate
  | .invalid => .invalid
  | .valid days _ => .valid days 0

/-- a.getTime() === b.getTime(): strict equality of timestamps; NaN (an
invalid date) compares unequal to everything, including itself. -/
def jsDateEqTime (a b : JSDate) : Bool :=
  match a, b with
  | .valid d1 m1, .valid d2 m2 => d1 == d2 && m1 == m2
  | _, _ => false

/-- date-fns isSunday: getDay() === 0. Rata die day 1 was a Monday, so
day number mod 7 equals the JavaScript getDay value. -/
def isSundayDate : JSDate → Bool
  | .valid days _ => days % 7 == 0
  | .invalid => false

/-- date-fns isSaturday: getDay() === 6. -/
def isSaturdayDate : JSDate → Bool
  | .valid days _ => days % 7 == 6
  | .invalid => false

/-- getExpectedHours from calculations.ts: reject invalid dates with
InvalidDateError, then return EXPECTED_HOURS.SUNDAY = 0.0 on Sundays,
EXPECTED_HOURS.SATURDAY = 4.0 on Saturdays, EXPECTED_HOURS.WEEKDAY = 8.5
on Monday through Friday. -/
def getExpectedHours (date : JSDate) : Except CalcError ℚ :=
  match date with
  | .invalid => .error (.invalidDate "Invalid date provided to getExpectedHours")
  | .valid days _ =>
    if days % 7 == 0 then .ok 0
    else if days % 7 == 6 then .ok 4
    else .ok (17/2)

/-! Gregorian calendar arithmetic backing the date-fns calls
(getDaysInMonth, startOfMonth, setDate). -/

def isLeapYear (y : ℤ) : Bool := (y % 4 == 0 && y % 100 != 0) || y % 400 == 0

/-- Number of days in month m (1-12) of year y. -/
def monthLength (y : ℤ) : ℕ → ℕ
  | 1 => 31
  | 2 => if isLeapYear y then 29 else 28
  | 3 => 31
  | 4 => 30
  | 5 => 31
  | 6 => 30
  | 7 => 31
  | 8 => 31
  | 9 => 30
  | 10 => 31
  | 11 => 30
  | 12 => 31
  | _ => 0

/-- Days in the months of year y strictly before month m. -/
def daysBeforeMonth (y : ℤ) (m : ℕ) : ℕ :=
  ((List.range (m - 1)).map (fun i => monthLength y (i + 1))).sum

/-- Rata die day number of the Gregorian date y-m-d (0001-01-01 is day 1).
The year is at least 1900 everywhere this is used, so truncating integer
division agrees with floor division. -/
def rataDie (y : ℤ) (m d : ℕ) : ℤ :=
  365 * (y - 1) + (y - 1) / 4 - (y - 1) / 100 + (y - 1) / 400
    + (daysBeforeMonth y m : ℤ) + (d : ℤ)

/-- Days in the target month, for a month given as the 1-based integer the
engine validates to lie in [1, 12]. -/
def daysInMonthI (year month : ℤ) : ℕ := monthLength year month.toNat

/-- The normalized Date for day `day` of the target month: what
normalizeDate(setDate(startOfMonth(new Date(year, month - 1, 1)), day))
evaluates to for a day within the month. -/
def monthDate (year month : ℤ) (day : ℕ) : JSDate := .valid (rataDie year month.toNat day) 0

/-- The date list built by the loop of generateMonthDates: day 1 through the
last day of the month, each normalized to midnight. -/
def genDates (year month : ℤ) : List JSDate :=
  (List.range (daysInMonthI year month)).map (fun i => monthDate year month (i + 1))

/-- generateMonthDates from calculations.ts: validate the year ([1900, 2100])
and the month ([1, 12]), then emit every date of the month in order. -/
def generateMonthDates (year month : ℤ) : Except CalcError (List JSDate) :=
  if year < 1900 ∨ 2100 < year then
    .error (.invalidDate "Invalid year. Must be an integer between 1900 and 2100.")
  else if month < 1 ∨ 12 < month then
    .error (.invalidDate "Invalid month. Must be an integer between 1 and 12.")
  else
    .ok (genDates year month)

/-! The record types of calculations.ts. -/

structure RawAttendanceInput where
  employeeId : String
  date : JSDate
  inTime : String
  outTime : String
  deriving DecidableEq

inductive AttendanceStatus where
  | present
  | absent
  | weekend
  | holiday
  deriving DecidableEq

structure ProcessedAttendanceRecord where
  employeeId : String
  date : JSDate
  inTime : Option String
  outTime : Option String
  workedHours : ℚ
  status : AttendanceStatus
  deriving DecidableEq

/-- findRecordForDate from calculations.ts: first entry whose normalized date
has the same timestamp as the target date. -/
def findRecordForDate (targetDate : JSDate) (rawRecords : List RawAttendanceInput) :
    Option RawAttendanceInput :=
  rawRecords.find? (fun record => jsDateEqTime (normalizeDate record.date) targetDate)

/-- JavaScript s || two-quote empty string: an empty string is falsy and falls
through to the empty default. -/
def jsOrEmpty (s : String) : String := if s = "" then "" else s

/-- normalizedRawRecords[0]?.employeeId || empty default, as used for the
employeeId of gap-filled records. -/
def gapEmployeeId (norm : List RawAttendanceInput) : String :=
  match norm with
  | [] => ""
  | r :: _ => jsOrEmpty r.employeeId

/-- The body of the map in processMonthlyAttendance: for one date of the month,
either a PRESENT record built from the matching raw entry (a failure of
calculateWorkedHours is rethrown, never swallowed), or a gap-filled WEEKEND
(Sunday) / ABSENT (Monday through Saturday) record. -/
def processDay (norm : List RawAttendanceInput) (date : JSDate) :
    Except CalcError ProcessedAttendanceRecord :=
  match findRecordForDate date norm with
  | some rawRecord => do
    let workedHours ← calculateWorkedHours rawRecord.inTime rawRecord.outTime
    .ok ⟨rawRecord.employeeId, date, some rawRecord.inTime, some rawRecord.outTime,
          workedHours, .present⟩
  | none =>
    if isSundayDate date then
      .ok ⟨gapEmployeeId norm, date, none, none, 0, .weekend⟩
    else
      .ok ⟨gapEmployeeId norm, date, none, none, 0, .absent⟩

/-- Array.prototype.map over a callback that may throw: the elements are
processed left to right and the first exception aborts the whole map with no
partial output. -/
def mapExcept (f : α → Except ε β) : List α → Except ε (List β)
  | [] => .ok []
  | x :: xs => do
    let y ← f x
    let ys ← mapExcept f xs
    .ok (y :: ys)

/-- The date normalization pass of processMonthlyAttendance over the raw
entries. -/
def normalizeEntries (rawRecords : List RawAttendanceInput) : List RawAttendanceInput :=
  rawRecords.map (fun r => { r with date := normalizeDate r.date })

/-- processMonthlyAttendance from calculations.ts: normalize the raw entries,
generate (and validate) the full month of dates, and process each date in
order, aborting on the first error. -/
def processMonthlyAttendance (year month : ℤ) (rawRecords : List RawAttendanceInput) :
    Except CalcError (List ProcessedAttendanceRecord) := do
  let norm := normalizeEntries rawRecords
  let allDatesInMonth ← generateMonthDates year month
  mapExcept (processDay norm) allDatesInMonth

structure ProductivityMetrics where
  actualHours : ℚ
  expectedHours : ℚ
  productivityPercentage : ℚ
  deriving DecidableEq

/-- calculateProductivity from calculations.ts: reject negative inputs with a
CalculationError (the spec name is InvalidMetricInput), return exactly 100 when
expectedHours is 0, otherwise (actual / expected) * 100 rounded to 1 decimal. -/
def calculateProductivity (actualHours expectedHours : ℚ) : Except CalcError ℚ :=
  if actualHours < 0 then
    .error (.calculation "Invalid actualHours. Must be a non-negative number." "calculateProductivity")
  else if expectedHours < 0 then
    .error (.calculation "Invalid expectedHours. Must be a non-negative number." "calculateProductivity")
  else if expectedHours = 0 then
    .ok 100
  else
    .ok (round1 (actualHours / expectedHours * 100))

/-- The accumulation loop of calculateAggregateProductivity: add each record's
workedHours to the first component and getExpectedHours of its date to the
second, aborting if getExpectedHours throws. -/
def sumHoursLoop : List ProcessedAttendanceRecord → ℚ × ℚ → Except CalcError (ℚ × ℚ)
  | [], acc => .ok acc
  | r :: rs, acc => do
    let e ← getExpectedHours r.date
    sumHoursLoop rs (acc.1 + r.workedHours, acc.2 + e)

/-- calculateAggregateProductivity from calculations.ts: reject an empty record
list, sum actual and expected hours, compute the percentage from the unrounded
totals, and return the metrics with the two totals rounded to 2 decimals. -/
def calculateAggregateProductivity (records : List ProcessedAttendanceRecord) :
    Except CalcError ProductivityMetrics :=
  if records.isEmpty then
    .error (.calculation "Records array must be non-empty" "calculateAggregateProductivity")
  else do
    let totals ← sumHoursLoop records (0, 0)
    let productivityPercentage ← calculateProductivity totals.1 totals.2
    .ok ⟨round2 totals.1, round2 totals.2, productivityPercentage⟩

/-! Helper notions used only to state the claims. -/

/-- Extract the record list of a successful processMonthlyAttendance call. -/
def exOk (x : Except CalcError (List ProcessedAttendanceRecord)) : List ProcessedAttendanceRecord :=
  match x with
  | .ok l => l
  | .error _ => []

/-- Every raw entry matched by some date of the target month has times that
calculateWorkedHours accepts. -/
def allMatchedOk (year month : ℤ) (norm : List RawAttendanceInput) : Bool :=
  (genDates year month).all fun d =>
    match findRecordForDate d norm with
    | some e => (calculateWorkedHours e.inTime e.outTime).isOk
    | none => true

/-- The employeeId of the first raw entry, or the empty string for an empty
input list. -/
def headEmployeeId : List RawAttendanceInput → String
  | [] => ""
  | e :: _ => e.employeeId

/-- Strict calendar order on valid dates. -/
def dateBefore : JSDate → JSDate → Prop
  | .valid d1 _, .valid d2 _ => d1 < d2
  | _, _ => False

/-- Total function giving the expected hours of a valid date (what
getExpectedHours returns when it does not throw). -/
def expectedHoursVal : JSDate → ℚ
  | .invalid => 0
  | .valid days _ => if days % 7 == 0 then 0 else if days % 7 == 6 then 4 else 17/2

/-- The error kinds calculateWorkedHours can produce: InvalidTimeFormatError
or CalculationError (CalculationOutOfRange in the spec's naming). -/
def errIsTimeOrRange : CalcError → Prop
  | .invalidTimeFormat _ _ => True
  | .calculation _ _ => True
  | .invalidDate _ => False

/-! Basic lemmas about the embedding. -/

theorem exceptBind_ok (a : α) (f : α → Except ε β) : (Except.ok a >>= f) = f a := rfl

theorem exceptBind_error (e : ε) (f : α → Except ε β) :
    ((Except.error e : Except ε α) >>= f) = Except.error e := rfl

theorem digitVal_le_of_isDigit {c : Char} (h : isDigitChar c = true) : digitVal c ≤ 9 := by
  simp only [isDigitChar, Bool.and_eq_true, decide_eq_true_eq] at h
  simp only [digitVal]
  omega

theorem digitVal_le_of_isMinTens {c : Char} (h : isMinTens c = true) : digitVal c ≤ 5 := by
  simp only [isMinTens, Bool.and_eq_true, decide_eq_true_eq] at h
  simp only [digitVal]
  omega

theorem digitVal_le_of_isHourSub {c : Char} (h : isHourSub c = true) : digitVal c ≤ 3 := by
  simp only [isHourSub, Bool.and_eq_true, decide_eq_true_eq] at h
  simp only [digitVal]
  omega

theorem isDigit_of_isMinTens {c : Char} (h : isMinTens c = true) : isDigitChar c = true := by
  simp only [isMinTens, Bool.and_eq_true, decide_eq_true_eq] at h
  simp only [isDigitChar, Bool.and_eq_true, decide_eq_true_eq]
  omega

theorem isDigit_of_isHourLead {c : Char} (h : isHourLead c = true) : isDigitChar c = true := by
  simp only [isHourLead, Bool.or_eq_true, beq_iff_eq] at h
  cases h with
  | inl h => subst h; decide
  | inr h => subst h; decide

theorem notWs_of_digit {c : Char} (h : isDigitChar c = true) : isWsChar c = false := by
  simp only [isDigitChar, Bool.and_eq_true, decide_eq_true_eq] at h
  simp only [isWsChar, Bool.or_eq_false_iff, beq_eq_false_iff_ne, ne_eq]
  refine ⟨⟨⟨?_, ?_⟩, ?_⟩, ?_⟩ <;> rintro rfl <;> revert h <;> decide

theorem timeRegexMatch_bounds {cs : List Char} {h m : ℕ}
    (hm : timeRegexMatch cs = some (h, m)) : h ≤ 23 ∧ m ≤ 59 := by
  match cs with
  | [] => simp [timeRegexMatch] at hm
  | [a] => simp [timeRegexMatch] at hm
  | [a, b] => simp [timeRegexMatch] at hm
  | [a, b, c] => simp [timeRegexMatch] at hm
  | [a, b, c, d] =>
    simp only [timeRegexMatch] at hm
    split at hm
    · rename_i hcond
      simp only [Bool.and_eq_true, beq_iff_eq] at hcond
      obtain ⟨⟨⟨-, h1⟩, h2⟩, h3⟩ := hcond
      injection hm with hm
      injection hm with hh hmm
      subst hh; subst hmm
      have := digitVal_le_of_isDigit h1
      have := digitVal_le_of_isMinTens h2
      have := digitVal_le_of_isDigit h3
      omega
    · simp at hm
  | [a, b, c, d, e] =>
    simp only [timeRegexMatch] at hm
    split at hm
    · rename_i hcond
      simp only [Bool.and_eq_true, Bool.or_eq_true, beq_iff_eq] at hcond
      obtain ⟨⟨⟨-, hhour⟩, h2⟩, h3⟩ := hcond
      injection hm with hm
      injection hm with hh hmm
      subst hh; subst hmm
      have := digitVal_le_of_isMinTens h2
      have := digitVal_le_of_isDigit h3
      cases hhour with
      | inl hl =>
        obtain ⟨hl1, hl2⟩ := hl
        have := digitVal_le_of_isDigit hl2
        have hlead : digitVal a ≤ 1 := by
          simp only [isHourLead, Bool.or_eq_true, beq_iff_eq] at hl1
          cases hl1 with
          | inl h => subst h; decide
          | inr h => subst h; decide
        omega
      | inr hr =>
        obtain ⟨hr1, hr2⟩ := hr
        subst hr1
        have := digitVal_le_of_isHourSub hr2
        have : digitVal '2' = 2 := by decide
        omega
    · simp at hm
  | a :: b :: c :: d :: e :: f :: t => simp [timeRegexMatch] at hm

theorem timeRegexMatch_trim {cs : List Char} {p : ℕ × ℕ}
    (hm : timeRegexMatch cs = some p) : trimChars cs = cs ∧ cs.isEmpty = false := by
  match cs with
  | [] => simp [timeRegexMatch] at hm
  | [a] => simp [timeRegexMatch] at hm
  | [a, b] => simp [timeRegexMatch] at hm
  | [a, b, c] => simp [timeRegexMatch] at hm
  | [a, b, c, d] =>
    simp only [timeRegexMatch] at hm
    split at hm
    · rename_i hcond
      simp only [Bool.and_eq_true, beq_iff_eq] at hcond
      obtain ⟨⟨⟨-, h1⟩, -⟩, h3⟩ := hcond
      have ha := notWs_of_digit h1
      have hd := notWs_of_digit h3
      refine ⟨?_, rfl⟩
      simp [trimChars, List.dropWhile_cons, ha, hd]
    · simp at hm
  | [a, b, c, d, e] =>
    simp only [timeRegexMatch] at hm
    split at hm
    · rename_i hcond
      simp only [Bool.and_eq_true, Bool.or_eq_true, beq_iff_eq] at hcond
      obtain ⟨⟨⟨-, hhour⟩, -⟩, h3⟩ := hcond
      have ha : isWsChar a = false := by
        cases hhour with
        | inl hl => exact notWs_of_digit (isDigit_of_isHourLead hl.1)
        | inr hr => rw [hr.1]; decide
      have he := notWs_of_digit h3
      refine ⟨?_, rfl⟩
      simp [trimChars, List.dropWhile_cons, ha, he]
    · simp at hm
  | a :: b :: c :: d :: e :: f :: t => simp [timeRegexMatch] at hm

theorem parseTime_of_match {s : String} {h m : ℕ}
    (hm : timeRegexMatch s.data = some (h, m)) : parseTime s = .ok (timeDecimal h m) := by
  obtain ⟨htrim, hne⟩ := timeRegexMatch_trim hm
  obtain ⟨hh, hmm⟩ := timeRegexMatch_bounds hm
  simp only [parseTime, htrim, hne, Bool.false_eq_true, if_false, hm]
  rw [if_neg (by omega), if_neg (by omega)]
  rfl

theorem timeDecimal_nonneg (h m : ℕ) : 0 ≤ timeDecimal h m := by
  unfold timeDecimal
  positivity

theorem timeDecimal_lt_24 {h m : ℕ} (hh : h ≤ 23) (hm : m ≤ 59) : timeDecimal h m < 24 := by
  unfold timeDecimal
  have h1 : (h : ℚ) ≤ 23 := by exact_mod_cast hh
  have h2 : (m : ℚ) ≤ 59 := by exact_mod_cast hm
  have h3 : (m : ℚ) / 60 ≤ 59 / 60 := by linarith
  linarith

theorem workedDiff_bounds {i o : ℚ} (hi0 : 0 ≤ i) (hi : i < 24) (ho0 : 0 ≤ o) (ho : o < 24) :
    0 ≤ workedDiff i o ∧ workedDiff i o ≤ 24 := by
  unfold workedDiff
  split <;> constructor <;> linarith

theorem calculateWorkedHours_of_match {s1 s2 : String} {h1 m1 h2 m2 : ℕ}
    (ha : timeRegexMatch s1.data = some (h1, m1))
    (hb : timeRegexMatch s2.data = some (h2, m2)) :
    calculateWorkedHours s1 s2 = .ok (round2 (workedDiff (timeDecimal h1 m1) (timeDecimal h2 m2)))
      ∧ 0 ≤ workedDiff (timeDecimal h1 m1) (timeDecimal h2 m2)
      ∧ workedDiff (timeDecimal h1 m1) (timeDecimal h2 m2) ≤ 24 := by
  obtain ⟨hh1, hm1⟩ := timeRegexMatch_bounds ha
  obtain ⟨hh2, hm2⟩ := timeRegexMatch_bounds hb
  obtain ⟨hd0, hd24⟩ := workedDiff_bounds (timeDecimal_nonneg h1 m1) (timeDecimal_lt_24 hh1 hm1)
    (timeDecimal_nonneg h2 m2) (timeDecimal_lt_24 hh2 hm2)
  refine ⟨?_, hd0, hd24⟩
  simp only [calculateWorkedHours, parseTime_of_match ha, parseTime_of_match hb, exceptBind_ok]
  rw [if_neg (by push_neg; constructor <;> linarith)]

theorem parseTime_error_shape {s : String} {err : CalcError} (h : parseTime s = .error err) :
    ∃ t d, err = .invalidTimeFormat t d := by
  simp only [parseTime] at h
  split at h
  · injection h with h
    exact ⟨_, _, h.symm⟩
  · split at h
    · injection h with h
      exact ⟨_, _, h.symm⟩
    · split at h
      · injection h with h
        exact ⟨_, _, h.symm⟩
      · split at h
        · injection h with h
          exact ⟨_, _, h.symm⟩
        · simp at h

theorem calculateWorkedHours_error_shape {s1 s2 : String} {err : CalcError}
    (h : calculateWorkedHours s1 s2 = .error err) : errIsTimeOrRange err := by
  simp only [calculateWorkedHours] at h
  cases ha : parseTime s1 with
  | error e =>
    rw [ha, exceptBind_error] at h
    injection h with h
    subst h
    obtain ⟨t, d, rfl⟩ := parseTime_error_shape ha
    trivial
  | ok q1 =>
    rw [ha, exceptBind_ok] at h
    cases hb : parseTime s2 with
    | error e =>
      rw [hb, exceptBind_error] at h
      injection h with h
      subst h
      obtain ⟨t, d, rfl⟩ := parseTime_error_shape hb
      trivial
    | ok q2 =>
      rw [hb, exceptBind_ok] at h
      split at h
      · injection h with h
        subst h
        trivial
      · simp at h

/-! Lemmas about mapExcept: exception-aborting map over lists. -/

theorem mapExcept_ok_length {f : α → Except ε β} :
    ∀ {l : List α} {ys : List β}, mapExcept f l = .ok ys → ys.length = l.length := by
  intro l
  induction l with
  | nil =>
    intro ys h
    simp only [mapExcept] at h
    injection h with h
    subst h
    rfl
  | cons x xs ih =>
    intro ys h
    simp only [mapExcept] at h
    cases hf : f x with
    | error e =>
      rw [hf, exceptBind_error] at h
      simp at h
    | ok y =>
      rw [hf, exceptBind_ok] at h
      cases hm : mapExcept f xs with
      | error e =>
        rw [hm, exceptBind_error] at h
        simp at h
      | ok ys2 =>
        rw [hm, exceptBind_ok] at h
        injection h with h
        subst h
        simp [ih hm]

theorem mapExcept_ok_get {f : α → Except ε β} :
    ∀ {l : List α} {ys : List β}, mapExcept f l = .ok ys →
      ∀ (i : ℕ) (a : α), l[i]? = some a → ∃ b, f a = .ok b ∧ ys[i]? = some b := by
  intro l
  induction l with
  | nil =>
    intro ys h i a ha
    simp at ha
  | cons x xs ih =>
    intro ys h i a ha
    simp only [mapExcept] at h
    cases hf : f x with
    | error e =>
      rw [hf, exceptBind_error] at h
      simp at h
    | ok y =>
      rw [hf, exceptBind_ok] at h
      cases hm : mapExcept f xs with
      | error e =>
        rw [hm, exceptBind_error] at h
        simp at h
      | ok ys2 =>
        rw [hm, exceptBind_ok] at h
        injection h with h
        subst h
        cases i with
        | zero =>
          simp only [List.getElem?_cons_zero] at ha ⊢
          injection ha with ha
          subst ha
          exact ⟨y, hf, rfl⟩
        | succ j =>
          simp only [List.getElem?_cons_succ] at ha ⊢
          exact ih hm j a ha

theorem mapExcept_isOk {f : α → Except ε β} :
    ∀ {l : List α}, (∀ a ∈ l, (f a).isOk = true) → (mapExcept f l).isOk = true := by
  intro l
  induction l with
  | nil =>
    intro _
    rfl
  | cons x xs ih =>
    intro h
    have hx := h x (List.mem_cons_self x xs)
    simp only [mapExcept]
    cases hf : f x with
    | error e =>
      rw [hf] at hx
      simp [Except.isOk, Except.toBool] at hx
    | ok y =>
      rw [exceptBind_ok]
      have hxs : (mapExcept f xs).isOk = true := ih (fun a ha => h a (List.mem_cons_of_mem x ha))
      cases hm : mapExcept f xs with
      | error e =>
        rw [hm] at hxs
        simp [Except.isOk, Except.toBool] at hxs
      | ok ys =>
        rw [exceptBind_ok]
        rfl

theorem mapExcept_error_mem {f : α → Except ε β} :
    ∀ {l : List α} {err : ε}, mapExcept f l = .error err → ∃ a ∈ l, f a = .error err := by
  intro l
  induction l with
  | nil =>
    intro err h
    simp only [mapExcept] at h
    simp at h
  | cons x xs ih =>
    intro err h
    simp only [mapExcept] at h
    cases hf : f x with
    | error e =>
      rw [hf, exceptBind_error] at h
      injection h with h
      subst h
      exact ⟨x, List.mem_cons_self x xs, hf⟩
    | ok y =>
      rw [hf, exceptBind_ok] at h
      cases hm : mapExcept f xs with
      | error e =>
        rw [hm, exceptBind_error] at h
        injection h with h
        subst h
        obtain ⟨a, ha, hfa⟩ := ih hm
        exact ⟨a, List.mem_cons_of_mem x ha, hfa⟩
      | ok ys2 =>
        rw [hm, exceptBind_ok] at h
        simp at h

theorem mapExcept_not_ok {f : α → Except ε β} {l : List α} {a : α}
    (ha : a ∈ l) (hf : (f a).isOk = false) : ∃ err, mapExcept f l = .error err := by
  cases hm : mapExcept f l with
  | error err => exact ⟨err, rfl⟩
  | ok ys =>
    exfalso
    obtain ⟨i, hi, rfl⟩ := List.getElem_of_mem ha
    have := mapExcept_ok_get hm i l[i] (List.getElem?_eq_getElem hi)
    obtain ⟨b, hb, -⟩ := this
    rw [hb] at hf
    simp [Except.isOk, Except.toBool] at hf

/-! Lemmas about processDay and the month-generation pipeline. -/

theorem processDay_found {norm : List RawAttendanceInput} {d : JSDate}
    {e : RawAttendanceInput} {w : ℚ} (hf : findRecordForDate d norm = some e)
    (hw : calculateWorkedHours e.inTime e.outTime = .ok w) :
    processDay norm d = .ok ⟨e.employeeId, d, some e.inTime, some e.outTime, w, .present⟩ := by
  simp only [processDay, hf, hw, exceptBind_ok]

theorem processDay_notFound {norm : List RawAttendanceInput} {d : JSDate}
    (hf : findRecordForDate d norm = none) :
    processDay norm d =
      .ok ⟨gapEmployeeId norm, d, none, none, 0,
            if isSundayDate d then .weekend else .absent⟩ := by
  simp only [processDay, hf]
  split <;> rfl

theorem processDay_ok_date {norm : List RawAttendanceInput} {d : JSDate}
    {r : ProcessedAttendanceRecord} (h : processDay norm d = .ok r) : r.date = d := by
  simp only [processDay] at h
  cases hf : findRecordForDate d norm with
  | some e =>
    simp only [hf] at h
    cases hw : calculateWorkedHours e.inTime e.outTime with
    | error err =>
      rw [hw, exceptBind_error] at h
      simp at h
    | ok w =>
      rw [hw, exceptBind_ok] at h
      injection h with h
      subst h
      rfl
  | none =>
    simp only [hf] at h
    split at h <;> (injection h with h; subst h; rfl)

theorem processDay_error {norm : List RawAttendanceInput} {d : JSDate} {err : CalcError}
    (h : processDay norm d = .error err) :
    ∃ e, findRecordForDate d norm = some e
      ∧ calculateWorkedHours e.inTime e.outTime = .error err := by
  simp only [processDay] at h
  cases hf : findRecordForDate d norm with
  | some e =>
    simp only [hf] at h
    cases hw : calculateWorkedHours e.inTime e.outTime with
    | error err2 =>
      rw [hw, exceptBind_error] at h
      injection h with h
      subst h
      exact ⟨e, rfl, hw⟩
    | ok w =>
      rw [hw, exceptBind_ok] at h
      simp at h
  | none =>
    simp only [hf] at h
    split at h <;> simp at h

theorem processDay_isOk {norm : List RawAttendanceInput} {d : JSDate}
    (h : (match findRecordForDate d norm with
          | some e => (calculateWorkedHours e.inTime e.outTime).isOk
          | none => true) = true) :
    (processDay norm d).isOk = true := by
  simp only [processDay]
  cases hf : findRecordForDate d norm with
  | some e =>
    simp only [hf] at h
    simp only [hf]
    cases hw : calculateWorkedHours e.inTime e.outTime with
    | error err =>
      rw [hw] at h
      simp [Except.isOk, Except.toBool] at h
    | ok w =>
      rw [exceptBind_ok]
      rfl
  | none =>
    simp only [hf]
    split <;> rfl

theorem generateMonthDates_ok {year month : ℤ} (hy1 : 1900 ≤ year) (hy2 : year ≤ 2100)
    (hm1 : 1 ≤ month) (hm2 : month ≤ 12) :
    generateMonthDates year month = .ok (genDates year month) := by
  simp only [generateMonthDates]
  rw [if_neg (by push_neg; omega), if_neg (by push_neg; omega)]

theorem processMonthlyAttendance_ok_elim {year month : ℤ} {raws : List RawAttendanceInput}
    {recs : List ProcessedAttendanceRecord}
    (h : processMonthlyAttendance year month raws = .ok recs) :
    mapExcept (processDay (normalizeEntries raws)) (genDates year month) = .ok recs := by
  simp only [processMonthlyAttendance, generateMonthDates] at h
  split at h
  · rw [exceptBind_error] at h
    simp at h
  · split at h
    · rw [exceptBind_error] at h
      simp at h
    · rw [exceptBind_ok] at h
      exact h

theorem genDates_length (year month : ℤ) :
    (genDates year month).length = daysInMonthI year month := by
  simp [genDates]

theorem genDates_get {year month : ℤ} {i : ℕ} (hi : i < daysInMonthI year month) :
    (genDates year month)[i]? = some (monthDate year month (i + 1)) := by
  simp [genDates, List.getElem?_map, List.getElem?_range hi]

theorem exOk_eq {x : Except CalcError (List ProcessedAttendanceRecord)}
    (h : x.isOk = true) : x = .ok (exOk x) := by
  cases x with
  | ok l => rfl
  | error e => simp [Except.isOk, Except.toBool] at h

theorem rataDie_day_lt {y : ℤ} {m d1 d2 : ℕ} (h : d1 < d2) :
    rataDie y m d1 < rataDie y m d2 := by
  unfold rataDie
  have hc : (d1 : ℤ) < (d2 : ℤ) := by exact_mod_cast h
  exact add_lt_add_left hc _

theorem gapEmployeeId_eq_head (raws : List RawAttendanceInput) :
    gapEmployeeId (normalizeEntries raws) = headEmployeeId raws := by
  cases raws with
  | nil => rfl
  | cons r t =>
    simp only [normalizeEntries, List.map_cons, gapEmployeeId, headEmployeeId, jsOrEmpty]
    split
    · rename_i h
      exact h.symm
    · rfl

theorem getExpectedHours_ok_val {d : JSDate} {q : ℚ} (h : getExpectedHours d = .ok q) :
    q = expectedHoursVal d := by
  cases d with
  | invalid => simp [getExpectedHours] at h
  | valid days ms =>
    simp only [getExpectedHours] at h
    simp only [expectedHoursVal]
    by_cases h0 : (days % 7 == 0) = true
    · rw [if_pos h0] at h
      rw [if_pos h0]
      injection h with h
      exact h.symm
    · rw [if_neg h0] at h
      rw [if_neg h0]
      by_cases h6 : (days % 7 == 6) = true
      · rw [if_pos h6] at h
        rw [if_pos h6]
        injection h with h
        exact h.symm
      · rw [if_neg h6] at h
        rw [if_neg h6]
        injection h with h
        exact h.symm

theorem sumHoursLoop_ok : ∀ {l : List ProcessedAttendanceRecord} {acc : ℚ × ℚ} {A E : ℚ},
    sumHoursLoop l acc = .ok (A, E) →
    A = acc.1 + (l.map (fun r => r.workedHours)).sum
      ∧ E = acc.2 + (l.map (fun r => expectedHoursVal r.date)).sum := by
  intro l
  induction l with
  | nil =>
    intro acc A E h
    simp only [sumHoursLoop] at h
    injection h with h
    subst h
    simp
  | cons r t ih =>
    intro acc A E h
    simp only [sumHoursLoop] at h
    cases hg : getExpectedHours r.date with
    | error e =>
      rw [hg, exceptBind_error] at h
      simp at h
    | ok q =>
      rw [hg, exceptBind_ok] at h
      obtain ⟨hA, hE⟩ := ih h
      have hq := getExpectedHours_ok_val hg
      subst hq
      constructor
      · rw [hA]
        simp only [List.map_cons, List.sum_cons]
        ring
      · rw [hE]
        simp only [List.map_cons, List.sum_cons]
        ring

/-! The claims. -/

/-- C5: for every pair of valid HH:MM time strings, calculateWorkedHours
returns outDecimal - inDecimal when outDecimal is at least inDecimal, and
24 - inDecimal + outDecimal otherwise (the two branches of workedDiff),
rounded to 2 decimal places; the rounding is floor(x * 100 + 1/2) / 100, which
on the non-negative values arising here (second conjunct) coincides with
round-half-away-from-zero. The three concrete cases of the claim follow. -/
theorem claim5_calculateWorkedHours (s1 s2 : String) (h1 m1 h2 m2 : ℕ)
    (ha : timeRegexMatch s1.data = some (h1, m1))
    (hb : timeRegexMatch s2.data = some (h2, m2)) :
    calculateWorkedHours s1 s2 =
        .ok (round2 (workedDiff (timeDecimal h1 m1) (timeDecimal h2 m2)))
      ∧ 0 ≤ workedDiff (timeDecimal h1 m1) (timeDecimal h2 m2)
      ∧ calculateWorkedHours "09:00" "17:30" = .ok (17/2)
      ∧ calculateWorkedHours "23:00" "01:00" = .ok 2
      ∧ calculateWorkedHours "09:00" "09:00" = .ok 0 := by
  obtain ⟨heq, hd0, -⟩ := calculateWorkedHours_of_match ha hb
  refine ⟨heq, hd0, ?_, ?_, ?_⟩
  · rw [(@calculateWorkedHours_of_match "09:00" "17:30" 9 0 17 30 (by decide) (by decide)).1]
    norm_num [timeDecimal, workedDiff, round2, jsRound]
  · rw [(@calculateWorkedHours_of_match "23:00" "01:00" 23 0 1 0 (by decide) (by decide)).1]
    norm_num [timeDecimal, workedDiff, round2, jsRound]
  · rw [(@calculateWorkedHours_of_match "09:00" "09:00" 9 0 9 0 (by decide) (by decide)).1]
    norm_num [timeDecimal, workedDiff, round2, jsRound]

/-- Witness for C5 at the concrete pair 08:15 / 16:45. -/
theorem claim5_witness :
    calculateWorkedHours "08:15" "16:45" =
      .ok (round2 (workedDiff (timeDecimal 8 15) (timeDecimal 16 45))) :=
  (claim5_calculateWorkedHours "08:15" "16:45" 8 15 16 45 (by decide) (by decide)).1

/-- C6: for every pair of valid HH:MM time strings the computed worked-hours
value lies in [0, 24], so calculateWorkedHours succeeds and its
CalculationOutOfRange branch is unreachable on validated inputs. -/
theorem claim6_workedHoursRange (s1 s2 : String) (h1 m1 h2 m2 : ℕ)
    (ha : timeRegexMatch s1.data = some (h1, m1))
    (hb : timeRegexMatch s2.data = some (h2, m2)) :
    0 ≤ workedDiff (timeDecimal h1 m1) (timeDecimal h2 m2)
      ∧ workedDiff (timeDecimal h1 m1) (timeDecimal h2 m2) ≤ 24
      ∧ (calculateWorkedHours s1 s2).isOk = true := by
  obtain ⟨heq, hd0, hd24⟩ := calculateWorkedHours_of_match ha hb
  exact ⟨hd0, hd24, by rw [heq]; rfl⟩

/-- Witness for C6 at the overnight pair 23:00 / 01:00. -/
theorem claim6_witness :
    0 ≤ workedDiff (timeDecimal 23 0) (timeDecimal 1 0)
      ∧ workedDiff (timeDecimal 23 0) (timeDecimal 1 0) ≤ 24
      ∧ (calculateWorkedHours "23:00" "01:00").isOk = true :=
  claim6_workedHoursRange "23:00" "01:00" 23 0 1 0 (by decide) (by decide)

/-- C7 counterexample: the claim says parseTime succeeds exactly on strings
matching the regex and fails on a valid time surrounded by extra characters,
but the source trims whitespace first: a leading space defeats the regex while
parseTime still succeeds. -/
theorem claim7_counterexample :
    timeRegexMatch (" 09:30").data = none ∧ parseTime " 09:30" = .ok (timeDecimal 9 30) :=
  ⟨by decide, rfl⟩

/-- C7 as amended: parseTime succeeds exactly on the strings whose
whitespace-trim matches ^([01]?[0-9]|2[0-3]):([0-5][0-9])$, returning
hour + minute/60; every other input (wrong separator, out-of-range hour or
minute, single-digit minute, non-numeric, empty or whitespace-only, or a valid
time surrounded by extra non-whitespace characters) fails with
InvalidTimeFormat. -/
theorem claim7_parseTime (s : String) :
    (∀ h m : ℕ, timeRegexMatch (trimChars s.data) = some (h, m) →
        parseTime s = .ok (timeDecimal h m))
      ∧ (timeRegexMatch (trimChars s.data) = none →
        ∃ t d, parseTime s = .error (.invalidTimeFormat t d)) := by
  constructor
  · intro h m hm
    have hne := (timeRegexMatch_trim hm).2
    obtain ⟨hh, hmm⟩ := timeRegexMatch_bounds hm
    simp only [parseTime, hne, Bool.false_eq_true, if_false, hm]
    rw [if_neg (by omega), if_neg (by omega)]
    rfl
  · intro hm
    simp only [parseTime]
    split
    · exact ⟨_, _, rfl⟩
    · rw [hm]
      exact ⟨_, _, rfl⟩

/-- Witness for C7 at the concrete strings 14:45 (accepted) and 9:5
(rejected: single-digit minute). -/
theorem claim7_witness :
    parseTime "14:45" = .ok (timeDecimal 14 45)
      ∧ ∃ t d, parseTime "9:5" = .error (.invalidTimeFormat t d) :=
  ⟨(claim7_parseTime "14:45").1 14 45 (by decide), (claim7_parseTime "9:5").2 (by decide)⟩

/-- C8: calculateProductivity rejects any negative input with the
InvalidMetricInput error (a CalculationError in the source), returns exactly
100 whenever expectedHours is 0 and actualHours passes validation, and
otherwise returns (actual / expected) * 100 rounded to 1 decimal, unclamped;
the three concrete cases of the claim follow (111.8 = 559/5). -/
theorem claim8_calculateProductivity (a e : ℚ) :
    (a < 0 ∨ e < 0 → ∃ msg ctx, calculateProductivity a e = .error (.calculation msg ctx))
      ∧ (0 ≤ a → e = 0 → calculateProductivity a e = .ok 100)
      ∧ (0 ≤ a → 0 < e → calculateProductivity a e = .ok (round1 (a / e * 100)))
      ∧ calculateProductivity (17/2) (17/2) = .ok 100
      ∧ calculateProductivity 0 0 = .ok 100
      ∧ calculateProductivity (19/2) (17/2) = .ok (559/5) := by
  refine ⟨?_, ?_, ?_, ?_, ?_, ?_⟩
  · intro h
    by_cases ha : a < 0
    · rw [calculateProductivity, if_pos ha]
      exact ⟨_, _, rfl⟩
    · have he : e < 0 := h.resolve_left ha
      rw [calculateProductivity, if_neg ha, if_pos he]
      exact ⟨_, _, rfl⟩
  · intro ha he
    subst he
    rw [calculateProductivity, if_neg (not_lt.mpr ha), if_neg (lt_irrefl 0), if_pos rfl]
  · intro ha he
    rw [calculateProductivity, if_neg (not_lt.mpr ha), if_neg (not_lt.mpr he.le),
      if_neg (ne_of_gt he)]
  · rw [calculateProductivity]
    norm_num [round1, jsRound]
  · rw [calculateProductivity]
    norm_num
  · rw [calculateProductivity]
    norm_num [round1, jsRound]

/-- Witness for C8 at the concrete pair (7, 8.5), an underperforming day. -/
theorem claim8_witness :
    calculateProductivity 7 (17/2) = .ok (round1 (7 / (17/2) * 100)) :=
  (claim8_calculateProductivity 7 (17/2)).2.2.1 (by norm_num) (by norm_num)

/-- C9: getExpectedHours is a pure function of the day of week (the time of
day and any same-weekday shift of the date are irrelevant), returning 0 for a
Sunday (day number 0 mod 7), 4 for a Saturday (6 mod 7) and 8.5 otherwise,
and failing with InvalidDateError on an invalid (unresolvable) date. -/
theorem claim9_getExpectedHours (days days2 : ℤ) (ms ms2 : ℕ) :
    (getExpectedHours .invalid = .error (.invalidDate "Invalid date provided to getExpectedHours"))
      ∧ (days % 7 = days2 % 7 →
        getExpectedHours (.valid days ms) = getExpectedHours (.valid days2 ms2))
      ∧ (days % 7 = 0 → getExpectedHours (.valid days ms) = .ok 0)
      ∧ (days % 7 = 6 → getExpectedHours (.valid days ms) = .ok 4)
      ∧ (days % 7 ≠ 0 → days % 7 ≠ 6 → getExpectedHours (.valid days ms) = .ok (17/2)) := by
  refine ⟨rfl, ?_, ?_, ?_, ?_⟩
  · intro h
    simp only [getExpectedHours, h]
  · intro h
    simp only [getExpectedHours, h]
    rfl
  · intro h
    simp only [getExpectedHours, h]
    rfl
  · intro h0 h6
    simp only [getExpectedHours]
    rw [if_neg (by simpa using h0), if_neg (by simpa using h6)]

/-- Witness for C9 at concrete dates: 2024-01-07 (Sunday), 2024-01-06
(Saturday), 2024-01-01 (Monday), and the weekday-purity conjunct applied to
the two Sundays 2024-01-07 and 2024-01-14. -/
theorem claim9_witness :
    getExpectedHours (.valid (rataDie 2024 1 7) 0) = .ok 0
      ∧ getExpectedHours (.valid (rataDie 2024 1 6) 0) = .ok 4
      ∧ getExpectedHours (.valid (rataDie 2024 1 1) 0) = .ok (17/2)
      ∧ getExpectedHours (.valid (rataDie 2024 1 7) 0)
          = getExpectedHours (.valid (rataDie 2024 1 14) 3600) :=
  ⟨(claim9_getExpectedHours (rataDie 2024 1 7) 0 0 0).2.2.1 (by decide),
   (claim9_getExpectedHours (rataDie 2024 1 6) 0 0 0).2.2.2.1 (by decide),
   (claim9_getExpectedHours (rataDie 2024 1 1) 0 0 0).2.2.2.2 (by decide) (by decide),
   (claim9_getExpectedHours (rataDie 2024 1 7) (rataDie 2024 1 14) 0 3600).2.1 (by decide)⟩

/-- C1 counterexample: the claim quantifies over every list of raw entries,
but a list whose month-matched entry has an unparseable time makes
processMonthlyAttendance abort with an error instead of returning one record
per calendar day. -/
theorem claim1_counterexample :
    (processMonthlyAttendance 2024 1
      [⟨"e1", .valid (rataDie 2024 1 5) 0, "bad", "17:00"⟩]).isOk = false := by
  decide

/-- C1 as amended: for every valid year and month and every raw-entry list,
whenever processMonthlyAttendance returns a record list (in particular
whenever every month-matched entry has parseable times — this always holds
for the empty list and for lists whose entries fall outside the target month),
that list has exactly one record per calendar day of the month, in ascending
date order covering day 1 through the last day with no gaps and no
duplicates, and its length is the number of days in the month. -/
theorem claim1_monthCoverage (year month : ℤ) (raws : List RawAttendanceInput) :
    (∀ recs, processMonthlyAttendance year month raws = .ok recs →
      recs.length = daysInMonthI year month
        ∧ (∀ i : ℕ, i < recs.length →
            (recs.map (fun r => r.date))[i]? = some (monthDate year month (i + 1)))
        ∧ List.Pairwise dateBefore (recs.map (fun r => r.date)))
      ∧ (1900 ≤ year → year ≤ 2100 → 1 ≤ month → month ≤ 12 →
        allMatchedOk year month (normalizeEntries raws) = true →
        (processMonthlyAttendance year month raws).isOk = true) := by
  constructor
  · intro recs h
    have hmap := processMonthlyAttendance_ok_elim h
    have hlen : recs.length = daysInMonthI year month := by
      rw [mapExcept_ok_length hmap, genDates_length]
    have hdate : ∀ i : ℕ, i < recs.length →
        (recs.map (fun r => r.date))[i]? = some (monthDate year month (i + 1)) := by
      intro i hi
      have hi2 : i < daysInMonthI year month := hlen ▸ hi
      obtain ⟨b, hb, hbi⟩ := mapExcept_ok_get hmap i _ (genDates_get hi2)
      rw [List.getElem?_map, hbi]
      simp [processDay_ok_date hb]
    refine ⟨hlen, hdate, ?_⟩
    rw [List.pairwise_iff_getElem]
    intro i j hi hj hij
    have hleni : i < recs.length := by simpa using hi
    have hlenj : j < recs.length := by simpa using hj
    have hdi := hdate i hleni
    have hdj := hdate j hlenj
    rw [List.getElem?_eq_getElem hi] at hdi
    rw [List.getElem?_eq_getElem hj] at hdj
    rw [Option.some.injEq] at hdi hdj
    rw [hdi, hdj]
    simp only [monthDate, dateBefore]
    exact rataDie_day_lt (by omega)
  · intro hy1 hy2 hm1 hm2 hall
    simp only [processMonthlyAttendance]
    rw [generateMonthDates_ok hy1 hy2 hm1 hm2, exceptBind_ok]
    refine mapExcept_isOk ?_
    intro d hd
    exact processDay_isOk (List.all_eq_true.mp hall d hd)

/-- Witness for C1: February 2024 (a leap year) with no raw entries processes
successfully into a list of exactly 29 records. -/
theorem claim1_witness :
    (processMonthlyAttendance 2024 2 []).isOk = true
      ∧ (exOk (processMonthlyAttendance 2024 2 [])).length = 29 := by
  have h2 := (claim1_monthCoverage 2024 2 []).2 (by decide) (by decide) (by decide) (by decide)
    (by decide)
  refine ⟨h2, ?_⟩
  have h1 := ((claim1_monthCoverage 2024 2 []).1 _ (exOk_eq h2)).1
  rw [h1]
  decide

/-- C2: each record of a successful processMonthlyAttendance call is
determined by its calendar day: when a normalized raw entry matches the day
(first match wins), the record is PRESENT with the entry's employeeId, its
inTime/outTime strings propagated unchanged, and calculateWorkedHours of those
times as workedHours; when no entry matches, the record has null times, zero
workedHours, and status WEEKEND exactly when the day is a Sunday, ABSENT on
every other day (Saturdays included). -/
theorem claim2_recordContents (year month : ℤ) (raws : List RawAttendanceInput)
    (recs : List ProcessedAttendanceRecord)
    (h : processMonthlyAttendance year month raws = .ok recs) (i : ℕ) (hi : i < recs.length) :
    (∀ e, findRecordForDate (monthDate year month (i + 1)) (normalizeEntries raws) = some e →
        ∃ w, calculateWorkedHours e.inTime e.outTime = .ok w
          ∧ recs[i]? = some ⟨e.employeeId, monthDate year month (i + 1), some e.inTime,
              some e.outTime, w, .present⟩)
      ∧ (findRecordForDate (monthDate year month (i + 1)) (normalizeEntries raws) = none →
        recs[i]? = some ⟨gapEmployeeId (normalizeEntries raws), monthDate year month (i + 1),
          none, none, 0,
          if isSundayDate (monthDate year month (i + 1)) then .weekend else .absent⟩) := by
  have hmap := processMonthlyAttendance_ok_elim h
  have hi2 : i < daysInMonthI year month := by
    rw [← genDates_length year month, ← mapExcept_ok_length hmap]
    exact hi
  obtain ⟨b, hb, hbi⟩ := mapExcept_ok_get hmap i _ (genDates_get hi2)
  constructor
  · intro e he
    simp only [processDay, he] at hb
    cases hw : calculateWorkedHours e.inTime e.outTime with
    | error err =>
      rw [hw, exceptBind_error] at hb
      simp at hb
    | ok w =>
      rw [hw, exceptBind_ok] at hb
      injection hb with hb
      exact ⟨w, rfl, by rw [hbi, ← hb]⟩
  · intro he
    rw [processDay_notFound he] at hb
    injection hb with hb
    rw [hbi, ← hb]

/-- Witness for C2: January 2024 with one entry on January 2 (09:00-17:30)
yields a PRESENT record with the propagated times at index 1. -/
theorem claim2_witness :
    (exOk (processMonthlyAttendance 2024 1
        [⟨"507f", .valid (rataDie 2024 1 2) 0, "09:00", "17:30"⟩]))[1]? =
      some ⟨"507f", monthDate 2024 1 2, some "09:00", some "17:30",
            round2 (workedDiff (timeDecimal 9 0) (timeDecimal 17 30)), .present⟩ := by
  have hcw := (@calculateWorkedHours_of_match "09:00" "17:30" 9 0 17 30
    (by decide) (by decide)).1
  have hok : (processMonthlyAttendance 2024 1
      [⟨"507f", .valid (rataDie 2024 1 2) 0, "09:00", "17:30"⟩]).isOk = true := by
    simp only [processMonthlyAttendance]
    rw [generateMonthDates_ok (by decide) (by decide) (by decide) (by decide), exceptBind_ok]
    refine mapExcept_isOk ?_
    intro d hd
    refine processDay_isOk ?_
    cases hf : findRecordForDate d (normalizeEntries
        [⟨"507f", .valid (rataDie 2024 1 2) 0, "09:00", "17:30"⟩]) with
    | none => rfl
    | some e =>
      have hmem := List.mem_of_find?_eq_some hf
      have he : e = ⟨"507f", .valid (rataDie 2024 1 2) 0, "09:00", "17:30"⟩ := by
        simpa [normalizeEntries, normalizeDate] using hmem
      subst he
      show (calculateWorkedHours "09:00" "17:30").isOk = true
      rw [hcw]
      rfl
  have hh := exOk_eq hok
  have hlen : 1 < (exOk (processMonthlyAttendance 2024 1
      [⟨"507f", .valid (rataDie 2024 1 2) 0, "09:00", "17:30"⟩])).length := by
    rw [mapExcept_ok_length (processMonthlyAttendance_ok_elim hh), genDates_length]
    decide
  have hfind : findRecordForDate (monthDate 2024 1 2) (normalizeEntries
      [⟨"507f", .valid (rataDie 2024 1 2) 0, "09:00", "17:30"⟩]) =
      some ⟨"507f", .valid (rataDie 2024 1 2) 0, "09:00", "17:30"⟩ := by
    decide
  obtain ⟨w, hw, hrec⟩ := (claim2_recordContents 2024 1 _ _ hh 1 hlen).1 _ hfind
  rw [hcw] at hw
  injection hw with hw
  rw [hrec, hw]

/-- C3: when some raw entry matched to a day of the target month has a time
that fails parsing (allMatchedOk is false), processMonthlyAttendance fails
with the underlying error of calculateWorkedHours on a matched entry — an
InvalidTimeFormatError or CalculationError, never swallowed or downgraded —
and returns no record list at all. -/
theorem claim3_strictBatch (year month : ℤ) (raws : List RawAttendanceInput)
    (hy1 : 1900 ≤ year) (hy2 : year ≤ 2100) (hm1 : 1 ≤ month) (hm2 : month ≤ 12)
    (hbad : allMatchedOk year month (normalizeEntries raws) = false) :
    ∃ err, processMonthlyAttendance year month raws = .error err
      ∧ errIsTimeOrRange err
      ∧ ∃ d ∈ genDates year month, ∃ e,
          findRecordForDate d (normalizeEntries raws) = some e
            ∧ calculateWorkedHours e.inTime e.outTime = .error err := by
  unfold allMatchedOk at hbad
  have hex := List.all_eq_false.mp hbad
  obtain ⟨d0, hd0, hp0⟩ := hex
  rw [Bool.not_eq_true] at hp0
  cases hf : findRecordForDate d0 (normalizeEntries raws) with
  | none =>
    simp [hf] at hp0
  | some e =>
    simp only [hf] at hp0
    cases hw : calculateWorkedHours e.inTime e.outTime with
    | ok w =>
      rw [hw] at hp0
      simp [Except.isOk, Except.toBool] at hp0
    | error err0 =>
      have hpdnotok : (processDay (normalizeEntries raws) d0).isOk = false := by
        simp only [processDay, hf, hw, exceptBind_error]
        rfl
      obtain ⟨err, herr⟩ := mapExcept_not_ok hd0 hpdnotok
      obtain ⟨d1, hd1, hpd1⟩ := mapExcept_error_mem herr
      obtain ⟨e1, hf1, hw1⟩ := processDay_error hpd1
      refine ⟨err, ?_, calculateWorkedHours_error_shape hw1, d1, hd1, e1, hf1, hw1⟩
      simp only [processMonthlyAttendance]
      rw [generateMonthDates_ok hy1 hy2 hm1 hm2, exceptBind_ok]
      exact herr

/-- Witness for C3: March 2024 with an entry on March 10 whose inTime 25:00
is out of range makes the whole call fail. -/
theorem claim3_witness :
    (processMonthlyAttendance 2024 3
      [⟨"e2", .valid (rataDie 2024 3 10) 0, "25:00", "17:00"⟩]).isOk = false := by
  obtain ⟨err, he, -, -⟩ := claim3_strictBatch 2024 3
    [⟨"e2", .valid (rataDie 2024 3 10) 0, "25:00", "17:00"⟩]
    (by decide) (by decide) (by decide) (by decide) (by decide)
  rw [he]
  rfl

/-- C4 counterexample: the claim says productivityPercentage equals
calculateProductivity applied to the rounded sums, but the source computes it
from the unrounded totals: one Saturday record with workedHours 1/500 = 0.002
yields metrics (actualHours 0, expectedHours 4, productivityPercentage 0.1),
while calculateProductivity of the rounded sums 0 and 4 is 0. -/
theorem claim4_counterexample :
    calculateAggregateProductivity
        [⟨"e", .valid 738891 0, none, none, 1/500, .absent⟩] = .ok ⟨0, 4, 1/10⟩
      ∧ calculateProductivity 0 4 = .ok 0
      ∧ (1/10 : ℚ) ≠ 0 := by
  refine ⟨?_, ?_, by norm_num⟩
  · have h0 : (((738891 : ℤ) % 7 == 0) = true) = False := by decide
    have h6 : (((738891 : ℤ) % 7 == 6) = true) = True := by decide
    simp only [calculateAggregateProductivity, List.isEmpty_cons, Bool.false_eq_true,
      if_false, sumHoursLoop, getExpectedHours, h0, h6, if_true, exceptBind_ok,
      calculateProductivity]
    norm_num [round1, round2, jsRound]
    rfl
  · rw [calculateProductivity]
    norm_num [round1, jsRound]

/-- C4 as amended: calculateAggregateProductivity fails with InvalidMetricInput
(a CalculationError) on an empty record list; otherwise it sums workedHours
and the recomputed getExpectedHours of each record's date, reports both sums
rounded to 2 decimals, and computes productivityPercentage by the
calculateProductivity formula applied to the UNROUNDED sums (not to the
rounded values it reports). -/
theorem claim4_aggregate (records : List ProcessedAttendanceRecord) (A E : ℚ) :
    (records = [] → calculateAggregateProductivity records =
        .error (.calculation "Records array must be non-empty" "calculateAggregateProductivity"))
      ∧ (records ≠ [] → sumHoursLoop records (0, 0) = .ok (A, E) → 0 ≤ A → 0 ≤ E →
        calculateAggregateProductivity records =
          .ok ⟨round2 A, round2 E, if E = 0 then 100 else round1 (A / E * 100)⟩)
      ∧ (sumHoursLoop records (0, 0) = .ok (A, E) →
        A = (records.map (fun r => r.workedHours)).sum
          ∧ E = (records.map (fun r => expectedHoursVal r.date)).sum) := by
  refine ⟨?_, ?_, ?_⟩
  · intro h
    subst h
    rfl
  · intro hne hsum hA hE
    have hempty : records.isEmpty = false := by
      cases records with
      | nil => exact absurd rfl hne
      | cons r t => rfl
    simp only [calculateAggregateProductivity, hempty, Bool.false_eq_true, if_false,
      hsum, exceptBind_ok]
    rw [calculateProductivity, if_neg (not_lt.mpr hA), if_neg (not_lt.mpr hE)]
    by_cases hE0 : E = 0
    · rw [if_pos hE0, exceptBind_ok, if_pos hE0]
    · rw [if_neg hE0, exceptBind_ok, if_neg hE0]
  · intro hsum
    have hs := sumHoursLoop_ok hsum
    simpa using hs

/-- Witness for C4: one PRESENT Monday record (2024-01-01, rata die 738886)
with 8.5 worked hours aggregates to actual = expected = 8.5. -/
theorem claim4_witness :
    ([⟨"em", .valid 738886 0, some "09:00", some "17:30", 17/2, .present⟩] :
        List ProcessedAttendanceRecord) ≠ []
      ∧ calculateAggregateProductivity
          [⟨"em", .valid 738886 0, some "09:00", some "17:30", 17/2, .present⟩] =
        .ok ⟨round2 (17/2), round2 (17/2),
             if (17/2 : ℚ) = 0 then 100 else round1 (17/2 / (17/2) * 100)⟩ := by
  have hsum : sumHoursLoop
      [⟨"em", .valid 738886 0, some "09:00", some "17:30", 17/2, .present⟩] (0, 0)
      = .ok (17/2, 17/2) := by
    have h0 : (((738886 : ℤ) % 7 == 0) = true) = False := by decide
    have h6 : (((738886 : ℤ) % 7 == 6) = true) = False := by decide
    simp [sumHoursLoop, getExpectedHours, h0, h6, exceptBind_ok]
  exact ⟨by simp, (claim4_aggregate _ (17/2) (17/2)).2.1 (by simp) hsum
    (by norm_num) (by norm_num)⟩

/-- C10: in a successful processMonthlyAttendance call every gap-filled record
(one whose day matched no raw entry) carries the employeeId of the first raw
entry of the input list, whatever that entry's date, falling back to the empty
string when the list is empty — in which case every record of the month is
gap-filled and carries the empty string. -/
theorem claim10_gapEmployee (year month : ℤ) (raws : List RawAttendanceInput)
    (recs : List ProcessedAttendanceRecord)
    (h : processMonthlyAttendance year month raws = .ok recs) :
    (∀ i : ℕ, i < recs.length →
        findRecordForDate (monthDate year month (i + 1)) (normalizeEntries raws) = none →
        (recs[i]?).map (fun r => r.employeeId) = some (headEmployeeId raws))
      ∧ (raws = [] → ∀ i : ℕ, i < recs.length →
        (recs[i]?).map (fun r => r.employeeId) = some "") := by
  have hmap := processMonthlyAttendance_ok_elim h
  have main : ∀ i : ℕ, i < recs.length →
      findRecordForDate (monthDate year month (i + 1)) (normalizeEntries raws) = none →
      (recs[i]?).map (fun r => r.employeeId) = some (headEmployeeId raws) := by
    intro i hi he
    have hi2 : i < daysInMonthI year month := by
      rw [← genDates_length year month, ← mapExcept_ok_length hmap]
      exact hi
    obtain ⟨b, hb, hbi⟩ := mapExcept_ok_get hmap i _ (genDates_get hi2)
    rw [processDay_notFound he] at hb
    injection hb with hb
    rw [hbi, ← hb]
    simp [gapEmployeeId_eq_head]
  refine ⟨main, ?_⟩
  intro hraws i hi
  subst hraws
  have he : findRecordForDate (monthDate year month (i + 1)) (normalizeEntries []) = none := rfl
  simpa [headEmployeeId] using main i hi he

/-- Witness for C10: February 2024 with no raw entries gives the empty
employeeId on the first gap-filled record. -/
theorem claim10_witness :
    ((exOk (processMonthlyAttendance 2024 2 []))[0]?).map (fun r => r.employeeId) = some "" := by
  have hok : (processMonthlyAttendance 2024 2 []).isOk = true := by
    simp only [processMonthlyAttendance]
    rw [generateMonthDates_ok (by decide) (by decide) (by decide) (by decide), exceptBind_ok]
    exact mapExcept_isOk (fun d hd => processDay_isOk rfl)
  have hh := exOk_eq hok
  have hlen : 0 < (exOk (processMonthlyAttendance 2024 2 [])).length := by
    rw [mapExcept_ok_length (processMonthlyAttendance_ok_elim hh), genDates_length]
    decide
  exact (claim10_gapEmployee 2024 2 [] _ hh).2 rfl 0 hlen

end LeaveAnalyzer
